import Mathlib

/-!
Shallow embedding of `src/association_rules.py` (whuang214/churn-nn-association).

The algorithmic code owned by the repository is `find_redundant_rules` (the quadratic
dominance scan, lines 82-105) and `get_top_rules` (line 79, `rules.head(top_n)`).
The frequent-itemset mining and the rule derivation are delegated to the
borrowed mlxtend library (`apriori`, `association_rules`), whose code is not part
of the repository; those two stages are modelled here from the specification
(see the doc comments starting with `Modelled from the spec:`).

Rules are DataFrame rows carrying the `antecedents` and `consequents` label sets
(frozensets of column names, embedded as `Finset α`) together with the numeric
metric columns, embedded as exact rationals.
-/

namespace ChurnAssoc

/-- Error kinds of §7 of the specification. The failure channel of the pipeline
stages is embedded as `Except PipelineError`. -/
inductive PipelineError where
  | schemaError
  | emptyTableError
  | invalidParameterError
deriving DecidableEq

/-- One row of the association-rules DataFrame: the `antecedents` and
`consequents` frozenset columns plus the numeric metric columns used by the
claims (`support`, `confidence`, `lift`), embedded as exact rationals. -/
structure Rule (α : Type) where
  antecedents : Finset α
  consequents : Finset α
  support : ℚ
  confidence : ℚ
  lift : ℚ
deriving DecidableEq

variable {α : Type} [DecidableEq α]

/-- The inner `for j, rule_j in rules_df.iterrows()` loop of
`find_redundant_rules` (lines 98-104), scanning the enumerated row list for a
dominator of row `i`: rows with `i == j` are skipped (`continue`), and the scan
returns `true` at the first row `j` with `ant_j < ant_i and cons_i == cons_j`
(the `break` after appending `i`). Returns whether index `i` gets appended to
`redundant_indices`. -/
def innerScan (i : ℕ) (ri : Rule α) : List (ℕ × Rule α) → Bool
  | [] => false
  | (j, rj) :: rest =>
    if i = j then innerScan i ri rest
    else if rj.antecedents ⊂ ri.antecedents ∧ ri.consequents = rj.consequents then true
    else innerScan i ri rest

/-- The `redundant_indices` list built by the outer
`for i, rule_i in rules_df.iterrows()` loop of `find_redundant_rules`
(lines 95-104): index `i` is appended (exactly once, because of the `break`)
when the inner scan finds a dominator. Row indices are `0, 1, 2, …` in list
order, as produced by `reset_index(drop=True)` upstream. -/
def redundant_indices (rules : List (Rule α)) : List ℕ :=
  (rules.enum.filter fun p => innerScan p.1 p.2 rules.enum).map Prod.fst

/-- `find_redundant_rules` (lines 82-105): the final
`rules_df.loc[redundant_indices]`, selecting the rows whose indices were
recorded, in recorded order. -/
def find_redundant_rules (rules : List (Rule α)) : List (Rule α) :=
  (redundant_indices rules).filterMap fun i => rules[i]?

/-- All sublists of a list: the subset enumeration used by the modelled mining
and rule-derivation stages (the source delegates these to mlxtend, which
enumerates subsets of each frozenset). -/
def subsetsList : List α → List (List α)
  | [] => [[]]
  | a :: rest => ((subsetsList rest).map fun t => a :: t) ++ subsetsList rest

/-- Modelled from the spec: the body of `generate_rules_from_itemsets`
(lines 49-65) delegates rule derivation to the mlxtend function `association_rules`,
which is not part of the repository. Following §4.3 and §3 of the spec: for
every frequent itemset of cardinality ≥ 2, every non-empty proper subset `A`
is an antecedent with consequent `iset \ A`; `support = support(iset)`,
`confidence = support(iset) / support(A)`, `lift = confidence / support(C)`;
rules with `confidence ≥ min_confidence` are retained and sorted by lift
descending. Itemsets are given as label lists (mined order) and support values
are supplied by the support function `s`. The final sort in the source
(line 65) is `sort_values(by="lift", ascending=False)` with the default pandas
sort kind; the model uses a stable merge sort — none of the properties proved
below about this function depend on the order of lift ties. -/
def generate_rules_from_itemsets (itemsets : List (List α)) (s : Finset α → ℚ)
    (min_confidence : ℚ) : List (Rule α) :=
  ((itemsets.flatMap fun I =>
      if 2 ≤ I.toFinset.card then
        (((subsetsList I).map List.toFinset).filter fun A =>
            decide (A ≠ ∅) && decide (A ≠ I.toFinset)).map fun A =>
          { antecedents := A
            consequents := I.toFinset \ A
            support := s I.toFinset
            confidence := s I.toFinset / s A
            lift := s I.toFinset / s A / s (I.toFinset \ A) }
      else []).filter fun r =>
        decide (min_confidence ≤ r.confidence)).mergeSort fun a b =>
    decide (b.lift ≤ a.lift)

/-- `get_top_rules` (lines 68-79): the body is `rules.head(top_n)`. pandas
`DataFrame.head(n)` returns the first `n` rows when `n ≥ 0` and all rows but
the last `|n|` when `n < 0` (Python slice `[:n]` semantics); it raises no
error for any integer `n`. -/
def get_top_rules (rules : List (Rule α)) (top_n : ℤ) :
    Except PipelineError (List (Rule α)) :=
  if 0 ≤ top_n then Except.ok (rules.take top_n.toNat)
  else Except.ok (rules.take (rules.length - (-top_n).toNat))

/-- The boolean presence matrix consumed by the mining stage: rows of flags
plus one label per column (§3 of the spec). -/
structure TransactionTable (α : Type) where
  rows : List (List Bool)
  labels : List α

/-- Support of an itemset over a table (§3, §4.1): the fraction of rows whose
flag at every position corresponding to a label of the itemset is true.
Embedded as an exact rational (0 when the table has no rows). -/
def tableSupport (t : TransactionTable α) (S : Finset α) : ℚ :=
  ((t.rows.filter fun row =>
      decide (∀ a ∈ S, row.getD (t.labels.indexOf a) false = true)).length : ℚ) /
    (t.rows.length : ℚ)

/-- Modelled from the spec: the body of `generate_frequent_itemsets`
(lines 33-46) delegates mining to the mlxtend function `apriori`, which is not part of
the repository. Following §4.2 of the spec: `min_support` is constrained to
(0, 1], failing with `InvalidParameterError` outside that range; the result is
the non-empty label subsets whose support meets `min_support`, listed in
increasing-cardinality order (the concatenation of the frequent levels
L₁…L_{k-1}), each carrying its support. -/
def generate_frequent_itemsets (t : TransactionTable α) (min_support : ℚ) :
    Except PipelineError (List (Finset α × ℚ)) :=
  if min_support ≤ 0 ∨ 1 < min_support then
    Except.error PipelineError.invalidParameterError
  else
    Except.ok ((List.range t.labels.length).flatMap fun k =>
      (((subsetsList t.labels).map List.toFinset).filter fun S =>
          decide (S.card = k + 1) && decide (min_support ≤ tableSupport t S)).map
        fun S => (S, tableSupport t S))

/-- The inner scan returns `true` exactly when the enumerated list holds a row
with a different index whose antecedent set is a strict subset of that of row
`i` and whose consequent set equals that of row `i`. -/
lemma innerScan_eq_true_iff (i : ℕ) (ri : Rule α) (l : List (ℕ × Rule α)) :
    innerScan i ri l = true ↔ ∃ j rj, (j, rj) ∈ l ∧ i ≠ j ∧
      rj.antecedents ⊂ ri.antecedents ∧ ri.consequents = rj.consequents := by
  induction l with
  | nil => simp [innerScan]
  | cons p rest ih =>
    obtain ⟨j, rj⟩ := p
    by_cases hij : i = j
    · rw [show innerScan i ri ((j, rj) :: rest) = innerScan i ri rest by
        simp [innerScan, hij], ih]
      constructor
      · rintro ⟨j1, rj1, hmem, hne, hss, hcons⟩
        exact ⟨j1, rj1, List.mem_cons_of_mem _ hmem, hne, hss, hcons⟩
      · rintro ⟨j1, rj1, hmem, hne, hss, hcons⟩
        rcases List.mem_cons.mp hmem with heq | hmem1
        · cases heq
          exact absurd hij hne
        · exact ⟨j1, rj1, hmem1, hne, hss, hcons⟩
    · by_cases hdom : rj.antecedents ⊂ ri.antecedents ∧ ri.consequents = rj.consequents
      · rw [show innerScan i ri ((j, rj) :: rest) = true by simp [innerScan, hij, hdom]]
        simp only [true_iff]
        exact ⟨j, rj, List.mem_cons_self _ _, hij, hdom.1, hdom.2⟩
      · rw [show innerScan i ri ((j, rj) :: rest) = innerScan i ri rest by
          simp [innerScan, hij, hdom], ih]
        constructor
        · rintro ⟨j1, rj1, hmem, hne, hss, hcons⟩
          exact ⟨j1, rj1, List.mem_cons_of_mem _ hmem, hne, hss, hcons⟩
        · rintro ⟨j1, rj1, hmem, hne, hss, hcons⟩
          rcases List.mem_cons.mp hmem with heq | hmem1
          · cases heq
            exact absurd ⟨hss, hcons⟩ hdom
          · exact ⟨j1, rj1, hmem1, hne, hss, hcons⟩

/-- Index `i` is recorded in `redundant_indices` exactly when some row at a
different index dominates row `i`. -/
lemma mem_redundant_indices_iff (rules : List (Rule α)) (i : ℕ) :
    i ∈ redundant_indices rules ↔ ∃ ri rj j, rules[i]? = some ri ∧
      rules[j]? = some rj ∧ j ≠ i ∧ rj.antecedents ⊂ ri.antecedents ∧
      ri.consequents = rj.consequents := by
  unfold redundant_indices
  rw [List.mem_map]
  constructor
  · rintro ⟨⟨i1, ri⟩, hp, rfl⟩
    rw [List.mem_filter] at hp
    obtain ⟨henum, hscan⟩ := hp
    obtain ⟨j, rj, hjmem, hij, hss, hcons⟩ := (innerScan_eq_true_iff _ _ _).mp hscan
    exact ⟨ri, rj, j, List.mem_enum_iff_getElem?.mp henum,
      List.mem_enum_iff_getElem?.mp hjmem, hij.symm, hss, hcons⟩
  · rintro ⟨ri, rj, j, hi, hj, hji, hss, hcons⟩
    refine ⟨(i, ri), List.mem_filter.mpr ⟨List.mem_enum_iff_getElem?.mpr hi, ?_⟩, rfl⟩
    exact (innerScan_eq_true_iff _ _ _).mpr
      ⟨j, rj, List.mem_enum_iff_getElem?.mpr hj, hji.symm, hss, hcons⟩

lemma filterMap_getElem_of_mem_enum (rules : List (Rule α)) :
    ∀ l : List (ℕ × Rule α), (∀ p ∈ l, rules[p.1]? = some p.2) →
      ((l.map Prod.fst).filterMap fun i => rules[i]?) = l.map Prod.snd := by
  intro l
  induction l with
  | nil => intro _; rfl
  | cons p rest ih =>
    intro h
    obtain ⟨j, rj⟩ := p
    have hj : rules[j]? = some rj := h (j, rj) (List.mem_cons_self _ _)
    simp only [List.map_cons, List.filterMap_cons, hj]
    exact congrArg (rj :: ·) (ih fun q hq => h q (List.mem_cons_of_mem _ hq))

/-- `rules_df.loc[redundant_indices]` selects exactly the dominated rows of the
enumerated input, in input order. -/
lemma find_redundant_rules_eq_filter (rules : List (Rule α)) :
    find_redundant_rules rules =
      (rules.enum.filter fun p => innerScan p.1 p.2 rules.enum).map Prod.snd := by
  unfold find_redundant_rules redundant_indices
  refine filterMap_getElem_of_mem_enum rules _ fun p hp => ?_
  exact List.mem_enum_iff_getElem?.mp ((List.mem_filter.mp hp).1)

lemma find_redundant_rules_sublist (rules : List (Rule α)) :
    (find_redundant_rules rules).Sublist rules := by
  rw [find_redundant_rules_eq_filter]
  have h := (List.filter_sublist
    (p := fun p => innerScan p.1 p.2 rules.enum) rules.enum).map Prod.snd
  rwa [List.enum_map_snd] at h

lemma redundant_indices_nodup (rules : List (Rule α)) :
    (redundant_indices rules).Nodup := by
  unfold redundant_indices
  have h := (List.filter_sublist
    (p := fun p => innerScan p.1 p.2 rules.enum) rules.enum).map Prod.fst
  rw [List.enum_map_fst] at h
  exact h.nodup (List.nodup_range _)

lemma subsetsList_toFinset_subset (l : List α) :
    ∀ T ∈ subsetsList l, T.toFinset ⊆ l.toFinset := by
  induction l with
  | nil =>
    intro T hT
    simp only [subsetsList, List.mem_singleton] at hT
    subst hT
    simp
  | cons a rest ih =>
    intro T hT
    simp only [subsetsList, List.mem_append, List.mem_map] at hT
    rcases hT with ⟨T1, hT1, rfl⟩ | hT2
    · simpa using Finset.insert_subset_insert a (ih T1 hT1)
    · exact (ih T hT2).trans (by simp [Finset.subset_insert])

/-! Concrete rules for witnesses. Labels are column positions; `0, 1, 2` play
the roles of `A, B, C` in scenario 3 of the spec. The metric columns are inert
for the redundancy scan and are set to simple literals. -/

/-- The scenario 3 rule `({A} → {C})`. -/
def ruleAC : Rule ℕ := ⟨{0}, {2}, 0, 0, 0⟩

/-- The scenario 3 rule `({A, B} → {C})`. -/
def ruleABC : Rule ℕ := ⟨{0, 1}, {2}, 0, 0, 0⟩

/-- A rule `({B} → {C})`, a second dominator of `ruleABC`. -/
def ruleBC : Rule ℕ := ⟨{1}, {2}, 0, 0, 0⟩

/-- C1: `find_redundant_rules` marks row `i` redundant exactly when another
row `j ≠ i` of the same list has an antecedent set that is a strict subset of
that of row `i` and a consequent set equal to that of row `i`; the `break` of the inner scan
only chooses the first such witness, so a single dominator suffices for
membership. -/
theorem redundant_iff_exists_dominator (rules : List (Rule α)) (i : ℕ) :
    i ∈ redundant_indices rules ↔ ∃ ri rj j, rules[i]? = some ri ∧
      rules[j]? = some rj ∧ j ≠ i ∧ rj.antecedents ⊂ ri.antecedents ∧
      ri.consequents = rj.consequents :=
  mem_redundant_indices_iff rules i

/-- C5: the output of `find_redundant_rules` is a subsequence of its input
(it preserves the relative order of the input), and an empty input yields an empty
output with no error. -/
theorem find_redundant_rules_preserves_order (rules : List (Rule α)) :
    (find_redundant_rules rules).Sublist rules ∧
      (rules = [] → find_redundant_rules rules = []) :=
  ⟨find_redundant_rules_sublist rules, fun h => by subst h; rfl⟩

/-- Witness for C5 at the empty list. -/
theorem find_redundant_rules_preserves_order_witness :
    find_redundant_rules ([] : List (Rule ℕ)) = [] :=
  (find_redundant_rules_preserves_order []).2 rfl

/-- C6: redundancy is irreflexive — in a list where every rule has the same
antecedent and consequent sets (so the only would-be dominator of a rule is a
copy of itself), no rule is marked redundant: a rule is never dominated by
itself, both because rows with `i == j` are skipped and because the strict
subset test fails on equal antecedents. -/
theorem find_redundant_rules_irreflexive (rules : List (Rule α))
    (h : ∀ r ∈ rules, ∀ r2 ∈ rules,
      r.antecedents = r2.antecedents ∧ r.consequents = r2.consequents) :
    find_redundant_rules rules = [] := by
  rw [find_redundant_rules_eq_filter]
  have hnil : (rules.enum.filter fun p => innerScan p.1 p.2 rules.enum) = [] := by
    rw [List.filter_eq_nil_iff]
    rintro ⟨i, ri⟩ hp hscan
    obtain ⟨j, rj, hjmem, _, hss, _⟩ := (innerScan_eq_true_iff _ _ _).mp hscan
    have hri : ri ∈ rules :=
      List.getElem?_mem (List.mem_enum_iff_getElem?.mp hp)
    have hrj : rj ∈ rules :=
      List.getElem?_mem (List.mem_enum_iff_getElem?.mp hjmem)
    have heq : rj.antecedents = ri.antecedents := (h rj hrj ri hri).1
    rw [heq] at hss
    exact ssubset_irrefl _ hss
  rw [hnil]
  rfl

/-- Witness for C6: two identical copies of the scenario 3 rule `({A} → {C})`
produce no redundant rows. -/
theorem find_redundant_rules_irreflexive_witness :
    find_redundant_rules [ruleAC, ruleAC] = [] :=
  find_redundant_rules_irreflexive [ruleAC, ruleAC] (by decide)

/-- C10: every row of the output of `find_redundant_rules` is a row of the
input, and no index is recorded twice — the `break` of the inner scan records each
dominated row at most once, even when several distinct rules dominate it. -/
theorem find_redundant_rules_rows_once (rules : List (Rule α)) :
    (∀ r ∈ find_redundant_rules rules, r ∈ rules) ∧
      (redundant_indices rules).Nodup :=
  ⟨fun _ hr => List.Sublist.mem hr (find_redundant_rules_sublist rules),
    redundant_indices_nodup rules⟩

/-- Witness for C10: `({A, B} → {C})` is dominated by both `({A} → {C})` and
`({B} → {C})`, is reported, is a row of the input, and no index is recorded
twice. -/
theorem find_redundant_rules_rows_once_witness :
    ruleABC ∈ [ruleAC, ruleBC, ruleABC] ∧
      (redundant_indices [ruleAC, ruleBC, ruleABC]).Nodup :=
  ⟨(find_redundant_rules_rows_once [ruleAC, ruleBC, ruleABC]).1 ruleABC (by decide),
    (find_redundant_rules_rows_once [ruleAC, ruleBC, ruleABC]).2⟩

/-- A support function for witnesses: every itemset has support 1 (a table
whose rows all contain every item). -/
def sOne : Finset ℕ → ℚ := fun _ => 1

/-- The rule `({0} → {1})` exactly as generated from the itemset `[0, 1]`
under `sOne` (metrics left as the generated rational expressions). -/
def ruleGen : Rule ℕ :=
  { antecedents := {0}, consequents := {0, 1} \ {0}, support := 1,
    confidence := 1 / 1, lift := 1 / 1 / 1 }

/-- A table over labels `{0, 1}` with no universally-present item. -/
def exTable : TransactionTable ℕ := ⟨[[true, false], [false, true]], [0, 1]⟩

/-- C3: every rule produced by the rule generator has confidence ≥
`min_confidence`, disjoint non-empty antecedent and consequent sets, and
`lift = confidence / support(consequent)` exactly (the embedding computes the
metrics in exact rational arithmetic, so equality within tolerance 1e-9 is
equality). -/
theorem generated_rules_meet_thresholds (itemsets : List (List α))
    (s : Finset α → ℚ) (minc : ℚ) (r : Rule α)
    (hr : r ∈ generate_rules_from_itemsets itemsets s minc) :
    minc ≤ r.confidence ∧ Disjoint r.antecedents r.consequents ∧
      r.antecedents ≠ ∅ ∧ r.consequents ≠ ∅ ∧
      r.lift = r.confidence / s r.consequents := by
  unfold generate_rules_from_itemsets at hr
  rw [List.mem_mergeSort, List.mem_filter] at hr
  obtain ⟨hc, hconf⟩ := hr
  have hconf1 : minc ≤ r.confidence := of_decide_eq_true hconf
  rw [List.mem_flatMap] at hc
  obtain ⟨I, _, hrI⟩ := hc
  by_cases h2 : 2 ≤ I.toFinset.card
  case neg =>
    rw [if_neg h2] at hrI
    exact absurd hrI (List.not_mem_nil r)
  rw [if_pos h2, List.mem_map] at hrI
  obtain ⟨A, hA, rfl⟩ := hrI
  rw [List.mem_filter] at hA
  obtain ⟨hAmem, hAcond⟩ := hA
  simp only [Bool.and_eq_true, decide_eq_true_eq] at hAcond
  obtain ⟨hAne, hAprop⟩ := hAcond
  rw [List.mem_map] at hAmem
  obtain ⟨T, hT, rfl⟩ := hAmem
  have hsub : T.toFinset ⊆ I.toFinset := subsetsList_toFinset_subset I T hT
  refine ⟨hconf1, Finset.disjoint_sdiff, hAne, ?_, rfl⟩
  intro hempty
  exact hAprop
    (Finset.Subset.antisymm hsub (Finset.sdiff_eq_empty_iff_subset.mp hempty))

/-- Witness for C3: the rule `({0} → {1})` generated from the single itemset
`[0, 1]` with all supports 1 and `min_confidence = 1` meets every guarantee. -/
theorem generated_rules_meet_thresholds_witness :
    (1 : ℚ) ≤ ruleGen.confidence ∧
      Disjoint ruleGen.antecedents ruleGen.consequents ∧
      ruleGen.antecedents ≠ ∅ ∧ ruleGen.consequents ≠ ∅ ∧
      ruleGen.lift = ruleGen.confidence / sOne ruleGen.consequents :=
  generated_rules_meet_thresholds [[0, 1]] sOne 1 ruleGen (by
    unfold generate_rules_from_itemsets
    rw [List.mem_mergeSort, List.mem_filter]
    simp [subsetsList, ruleGen, sOne]
    exact ⟨{0}, by decide, rfl, rfl⟩)

/-- C7: an empty frequent-itemset result makes the rule generator return an
empty rule list rather than raise an error. -/
theorem generate_rules_empty_input (s : Finset α → ℚ) (minc : ℚ) :
    generate_rules_from_itemsets ([] : List (List α)) s minc = [] := by
  simp [generate_rules_from_itemsets]

/-- C4: composing the generator with `get_top_rules n` for any `n` at least
the number of generated rules returns the full sorted rule list unchanged. -/
theorem generate_then_take_top_roundtrip (itemsets : List (List α))
    (s : Finset α → ℚ) (minc : ℚ) (n : ℤ)
    (h : ((generate_rules_from_itemsets itemsets s minc).length : ℤ) ≤ n) :
    get_top_rules (generate_rules_from_itemsets itemsets s minc) n =
      Except.ok (generate_rules_from_itemsets itemsets s minc) := by
  have h0 : (0 : ℤ) ≤ n :=
    le_trans (Int.ofNat_nonneg _) h
  have hlen : (generate_rules_from_itemsets itemsets s minc).length ≤ n.toNat := by
    have h1 := Int.toNat_le_toNat h
    simpa using h1
  unfold get_top_rules
  rw [if_pos h0, List.take_of_length_le hlen]

/-- Witness for C4: the two rules generated from the itemset `[0, 1]` (with
all supports 1) round-trip through `get_top_rules` with `n = 5`. -/
theorem generate_then_take_top_roundtrip_witness :
    get_top_rules (generate_rules_from_itemsets [[0, 1]] sOne 1) 5 =
      Except.ok (generate_rules_from_itemsets [[0, 1]] sOne 1) :=
  generate_then_take_top_roundtrip [[0, 1]] sOne 1 5 (by
    have h2 : (generate_rules_from_itemsets [[0, 1]] sOne 1).length ≤ 2 := by
      unfold generate_rules_from_itemsets
      rw [List.length_mergeSort]
      refine le_trans (List.length_filter_le _ _) ?_
      simp [subsetsList]
      decide
    omega)

/-- C8 (on the spec-modelled miner): `min_support` outside (0, 1] fails with
`InvalidParameterError`. -/
theorem generate_frequent_itemsets_param_error (t : TransactionTable α)
    (ms : ℚ) (h : ms ≤ 0 ∨ 1 < ms) :
    generate_frequent_itemsets t ms =
      Except.error PipelineError.invalidParameterError := by
  unfold generate_frequent_itemsets
  rw [if_pos h]

/-- Witness for C8 at the scenario 4 value `min_support = 1.5`. -/
theorem generate_frequent_itemsets_param_error_witness :
    generate_frequent_itemsets exTable (3 / 2) =
      Except.error PipelineError.invalidParameterError :=
  generate_frequent_itemsets_param_error exTable (3 / 2) (Or.inr (by norm_num))

/-- C9 counterexample: `get_top_rules` at `top_n = -1` does not fail with
`InvalidParameterError` — following pandas `head`, it returns all rows but the
last one. -/
theorem get_top_rules_negative_counterexample :
    get_top_rules [ruleAC, ruleABC] (-1) = Except.ok [ruleAC] ∧
      get_top_rules [ruleAC, ruleABC] (-1) ≠
        Except.error PipelineError.invalidParameterError := by
  refine ⟨rfl, ?_⟩
  intro h
  exact Except.noConfusion h

/-- C9 as amended: `get_top_rules` returns the first `n` rules for `n ≥ 0`
(all of them when fewer than `n` exist); for negative `n` it raises no error
and instead returns all rules but the last `|n|` (Python slice semantics of
pandas `head`). -/
theorem get_top_rules_head_semantics (rules : List (Rule α)) (n : ℤ) :
    (0 ≤ n → get_top_rules rules n = Except.ok (rules.take n.toNat)) ∧
      (0 ≤ n → rules.length ≤ n.toNat →
        get_top_rules rules n = Except.ok rules) ∧
      (n < 0 → get_top_rules rules n =
        Except.ok (rules.take (rules.length - (-n).toNat))) ∧
      (∀ e, get_top_rules rules n ≠ Except.error e) := by
  refine ⟨fun h => ?_, fun h hlen => ?_, fun h => ?_, fun e => ?_⟩
  · unfold get_top_rules
    rw [if_pos h]
  · unfold get_top_rules
    rw [if_pos h, List.take_of_length_le hlen]
  · unfold get_top_rules
    rw [if_neg (not_le.mpr h)]
  · unfold get_top_rules
    by_cases h : 0 ≤ n
    · rw [if_pos h]
      exact fun hc => Except.noConfusion hc
    · rw [if_neg h]
      exact fun hc => Except.noConfusion hc

/-- Witness for the amended C9: `n = 1` keeps the first rule, `n = 5`
keeps both rules, `n = -1` raises no error. -/
theorem get_top_rules_head_semantics_witness :
    get_top_rules [ruleAC, ruleABC] 1 = Except.ok [ruleAC] ∧
      get_top_rules [ruleAC, ruleABC] 5 = Except.ok [ruleAC, ruleABC] ∧
      get_top_rules [ruleAC, ruleABC] (-1) ≠
        Except.error PipelineError.invalidParameterError :=
  ⟨(get_top_rules_head_semantics [ruleAC, ruleABC] 1).1 (by decide),
    (get_top_rules_head_semantics [ruleAC, ruleABC] 5).2.1 (by decide) (by decide),
    (get_top_rules_head_semantics [ruleAC, ruleABC] (-1)).2.2.2
      PipelineError.invalidParameterError⟩

end ChurnAssoc
